import Mathlib

/-!
# Verification of the nxus-data-loaders core

Shallow embedding, in Lean 4, of the core of the `nxus-data-loaders`
repository:

* `PooledRequest` / request pools (`src/PooledDataRequest.js`,
  `src/PooledDataRequestMixin.js`);
* the shared-loader registry (`src/SharedDataLoaders.js`);
* the streaming entity-merge processor
  (`DeserializingEntityDataProcessor._streamedDataProcessor`) and the
  singleton variant (`DeserializingSingletonDataProcessor`);
* the change-notification reload decision
  (`src/UpdatingDataLoaderMixin.js` together with the request scheduling
  of `StreamedDataLoader._delayedDataRequest`).

JavaScript `Map` objects are embedded as association lists with a
`Map.set`-style replace-or-append update, JavaScript `Set` objects as
duplicate-free lists with append-on-add, and object identity (references)
as explicit numeric ids carried by the modelled objects.
-/

namespace NxusDataLoaders

/-! ## Association lists (JavaScript `Map` and plain objects)

JavaScript `Map.set` replaces the value of an existing key in place and
appends a binding for a fresh key; `Map.get` returns the value of the
(unique) matching key; `Map.delete` removes the binding.  We embed maps
as association lists: `setA` replaces the first matching binding (for
lists built from the empty map keys never repeat, so this is exact),
`lookupA` finds the first, `eraseA` deletes the first. -/

variable {κ : Type} {α : Type} [DecidableEq κ]

def lookupA : List (κ × α) → κ → Option α
  | [], _ => none
  | (k, v) :: t, k0 => if k = k0 then some v else lookupA t k0

def setA : List (κ × α) → κ → α → List (κ × α)
  | [], k0, v0 => [(k0, v0)]
  | (k, v) :: t, k0, v0 =>
      if k = k0 then (k0, v0) :: t else (k, v) :: setA t k0 v0

def eraseA : List (κ × α) → κ → List (κ × α)
  | [], _ => []
  | (k, v) :: t, k0 => if k = k0 then t else (k, v) :: eraseA t k0

def keysA (m : List (κ × α)) : List κ := m.map Prod.fst

/-- JavaScript `Set.add`: append the element unless already present. -/
def addSet (l : List κ) (a : κ) : List κ := if a ∈ l then l else l ++ [a]

theorem lookupA_setA_self (m : List (κ × α)) (k : κ) (v : α) :
    lookupA (setA m k v) k = some v := by
  induction m with
  | nil => simp [setA, lookupA]
  | cons p t ih =>
      obtain ⟨k1, v1⟩ := p
      by_cases h : k1 = k <;> simp [setA, lookupA, h, ih]

theorem lookupA_setA_ne (m : List (κ × α)) (k k0 : κ) (v : α) (h : k ≠ k0) :
    lookupA (setA m k v) k0 = lookupA m k0 := by
  induction m with
  | nil => simp [setA, lookupA, h]
  | cons p t ih =>
      obtain ⟨k1, v1⟩ := p
      by_cases h1 : k1 = k
      · subst h1; simp [setA, lookupA, h]
      · simp [setA, lookupA, h1, ih]

theorem keysA_setA (m : List (κ × α)) (k : κ) (v : α) :
    keysA (setA m k v) = if (lookupA m k).isSome then keysA m else keysA m ++ [k] := by
  induction m with
  | nil => simp [setA, keysA, lookupA]
  | cons p t ih =>
      obtain ⟨k1, v1⟩ := p
      simp only [keysA] at ih ⊢
      by_cases h : k1 = k
      · subst h; simp [setA, lookupA]
      · simp only [setA, if_neg h, lookupA, List.map_cons, ih]
        by_cases h2 : (lookupA t k).isSome <;> simp [h2]

theorem nodup_keysA_setA (m : List (κ × α)) (k : κ) (v : α)
    (h : (keysA m).Nodup) : (keysA (setA m k v)).Nodup := by
  rw [keysA_setA]
  by_cases hs : (lookupA m k).isSome
  · simpa [hs]
  · have hk : k ∉ keysA m := by
      intro hmem
      apply hs
      clear hs
      induction m with
      | nil => simp [keysA] at hmem
      | cons p t ih =>
          obtain ⟨k1, v1⟩ := p
          by_cases h1 : k1 = k
          · simp [lookupA, h1]
          · simp only [keysA, List.map_cons, List.mem_cons] at hmem
            rcases hmem with h2 | h2
            · exact absurd h2.symm h1
            · simpa [lookupA, h1] using ih (List.Nodup.of_cons h) h2
    simp only [hs, if_false]
    exact List.Nodup.append h (List.nodup_singleton k) (by simpa using hk)

theorem lookupA_none_of_not_mem_keysA (m : List (κ × α)) (k : κ)
    (h : k ∉ keysA m) : lookupA m k = none := by
  induction m with
  | nil => rfl
  | cons p t ih =>
      obtain ⟨k1, v1⟩ := p
      simp only [keysA, List.map_cons, List.mem_cons] at h
      push_neg at h
      rw [lookupA, if_neg (fun e => h.1 e.symm)]
      exact ih (by simpa [keysA] using h.2)

end NxusDataLoaders

namespace NxusDataLoaders

/-! ## Request pools — `PooledRequest` (src/PooledDataRequest.js)

Requests are identified by numeric ids (object identity).  A pool holds
`limit` (2 by default: `getPool` merges `{limit: 2, ...options}`), the
FIFO `queued` array and the `active` set. -/

structure Pool where
  limit : Nat
  queued : List Nat
  active : Finset Nat
  deriving DecidableEq

/-- `PooledRequest.getPool(name)` creates a pool with empty queue and
active set (limit 2 unless options supplied at creation time). -/
def initPool (limit : Nat) : Pool := { limit := limit, queued := [], active := ∅ }

/-- `PooledRequest.startPool` (src/PooledDataRequest.js lines 99-107):
if the queue is non-empty and `limit > active.size`, shift the head of
the queue into the active set and start it. -/
def startPool (p : Pool) : Pool :=
  match p.queued with
  | [] => p
  | r :: rest =>
      if p.active.card < p.limit then
        { p with queued := rest, active := insert r p.active }
      else p

/-- `PooledRequest.enqueue` (lines 38-44): guarded by
`if (this.state) throw ...` — a request object can only ever be enqueued
once, so an id already present in the pool is rejected (the throw leaves
the pool unchanged; the real guard is stricter still, also rejecting
requests that have left the pool, so every real trace is a trace of this
model).  Otherwise push onto `queued` and attempt admission. -/
def enqueue (r : Nat) (p : Pool) : Pool :=
  if r ∈ p.queued ∨ r ∈ p.active then p
  else startPool { p with queued := p.queued ++ [r] }

/-- `PooledRequest.dequeue` (lines 46-53): remove the request from
`queued` (first occurrence, as `indexOf`/`splice`) and from `active`,
unconditionally, then attempt admission. -/
def dequeue (r : Nat) (p : Pool) : Pool :=
  startPool { p with queued := p.queued.erase r, active := p.active.erase r }

inductive PoolOp where
  | enq (r : Nat)
  | deq (r : Nat)
  deriving DecidableEq, Repr

def applyPoolOp (p : Pool) : PoolOp → Pool
  | .enq r => enqueue r p
  | .deq r => dequeue r p

def runPoolOps (ops : List PoolOp) (p : Pool) : Pool := ops.foldl applyPoolOp p

/-- The pool invariant: the active set is within the limit, queued
requests are never simultaneously active, and the queue has no
duplicates. -/
def PoolInv (p : Pool) : Prop :=
  p.active.card ≤ p.limit ∧ (∀ r ∈ p.queued, r ∉ p.active) ∧ p.queued.Nodup

theorem poolInv_init (limit : Nat) : PoolInv (initPool limit) := by
  refine ⟨by simp [initPool], by simp [initPool], by simp [initPool]⟩

theorem poolInv_startPool (p : Pool) (h : PoolInv p) : PoolInv (startPool p) := by
  obtain ⟨hcard, hdisj, hnd⟩ := h
  unfold startPool
  cases hq : p.queued with
  | nil => exact ⟨hcard, hdisj, hnd⟩
  | cons r rest =>
      rw [hq] at hdisj hnd
      by_cases hlt : p.active.card < p.limit
      · simp only [if_pos hlt]
        refine ⟨?_, ?_, (List.nodup_cons.mp hnd).2⟩
        · calc (insert r p.active).card ≤ p.active.card + 1 := Finset.card_insert_le _ _
            _ ≤ p.limit := hlt
        · intro x hx
          simp only [Finset.mem_insert]
          push_neg
          constructor
          · intro hxr
            subst hxr
            exact (List.nodup_cons.mp hnd).1 hx
          · exact hdisj x (List.mem_cons_of_mem _ hx)
      · simp only [if_neg hlt]
        exact ⟨hcard, by rw [hq]; exact hdisj, by rw [hq]; exact hnd⟩

theorem poolInv_enqueue (r : Nat) (p : Pool) (h : PoolInv p) : PoolInv (enqueue r p) := by
  unfold enqueue
  by_cases hmem : r ∈ p.queued ∨ r ∈ p.active
  · rw [if_pos hmem]; exact h
  · rw [if_neg hmem]
    push_neg at hmem
    apply poolInv_startPool
    obtain ⟨hcard, hdisj, hnd⟩ := h
    refine ⟨hcard, ?_, ?_⟩
    · intro x hx
      simp only [List.mem_append, List.mem_singleton] at hx
      rcases hx with hx | hx
      · exact hdisj x hx
      · subst hx; exact hmem.2
    · refine List.Nodup.append hnd (List.nodup_singleton r) ?_
      intro a ha hb
      rw [List.mem_singleton] at hb
      subst hb
      exact hmem.1 ha

theorem poolInv_dequeue (r : Nat) (p : Pool) (h : PoolInv p) : PoolInv (dequeue r p) := by
  unfold dequeue
  apply poolInv_startPool
  obtain ⟨hcard, hdisj, hnd⟩ := h
  refine ⟨le_trans (Finset.card_le_card (Finset.erase_subset r p.active)) hcard, ?_, hnd.erase r⟩
  intro x hx
  have hx0 : x ∈ p.queued := List.mem_of_mem_erase hx
  intro hxa
  exact hdisj x hx0 (Finset.mem_of_mem_erase hxa)

theorem poolInv_run (ops : List PoolOp) (p : Pool) (h : PoolInv p) :
    PoolInv (runPoolOps ops p) := by
  induction ops generalizing p with
  | nil => exact h
  | cons op t ih =>
      cases op with
      | enq r => exact ih _ (poolInv_enqueue r p h)
      | deq r => exact ih _ (poolInv_dequeue r p h)

theorem dequeue_active_admits_head (p : Pool) (r q : Nat) (rest : List Nat)
    (hinv : PoolInv p) (hr : r ∈ p.active) (hq : p.queued = q :: rest) :
    q ∈ (dequeue r p).active ∧ (dequeue r p).queued = rest ∧
      (dequeue r p).active.card ≤ p.limit := by
  obtain ⟨hcard, hdisj, _⟩ := hinv
  have hrq : r ∉ p.queued := fun hmem => hdisj r hmem hr
  have herase : p.queued.erase r = q :: rest := by
    rw [List.erase_of_not_mem hrq, hq]
  have hlt : (p.active.erase r).card < p.limit := by
    have h1 := Finset.card_erase_of_mem hr
    have h2 : 0 < p.active.card := Finset.card_pos.mpr ⟨r, hr⟩
    omega
  unfold dequeue startPool
  simp only [herase]
  rw [if_pos hlt]
  refine ⟨Finset.mem_insert_self _ _, rfl, ?_⟩
  calc (insert q (p.active.erase r)).card ≤ (p.active.erase r).card + 1 :=
        Finset.card_insert_le _ _
    _ ≤ p.limit := hlt

end NxusDataLoaders

namespace NxusDataLoaders

/-- C2: For every sequence of enqueue/dequeue operations on a named pool
with limit L (default 2), including bursts of more than L simultaneous
enqueues, the active set never holds more than L requests, and whenever a
dequeue frees an active slot the head of the queued list (if non-empty)
is immediately admitted to the active set (and the bound still holds). -/
theorem pool_limit_and_admission (L : Nat) (ops : List PoolOp) (r q : Nat)
    (rest : List Nat) :
    (runPoolOps ops (initPool L)).active.card ≤ L ∧
      (r ∈ (runPoolOps ops (initPool L)).active →
        (runPoolOps ops (initPool L)).queued = q :: rest →
          q ∈ (dequeue r (runPoolOps ops (initPool L))).active ∧
            (dequeue r (runPoolOps ops (initPool L))).queued = rest ∧
            (dequeue r (runPoolOps ops (initPool L))).active.card ≤ L) := by
  have hinv : PoolInv (runPoolOps ops (initPool L)) :=
    poolInv_run ops (initPool L) (poolInv_init L)
  have hL : (runPoolOps ops (initPool L)).limit = L := by
    have : ∀ (l : List PoolOp) (p : Pool), (runPoolOps l p).limit = p.limit := by
      intro l
      induction l with
      | nil => intro p; rfl
      | cons op t ih =>
          intro p
          have step : (applyPoolOp p op).limit = p.limit := by
            cases op with
            | enq s =>
                simp only [applyPoolOp, enqueue]
                by_cases hm : s ∈ p.queued ∨ s ∈ p.active
                · simp [hm]
                · simp only [if_neg (by tauto), startPool]
                  cases hq2 : p.queued ++ [s] with
                  | nil => rfl
                  | cons a t2 => by_cases hc : p.active.card < p.limit <;> simp [hc]
            | deq s =>
                simp only [applyPoolOp, dequeue, startPool]
                cases hq2 : p.queued.erase s with
                | nil => rfl
                | cons a t2 => by_cases hc : (p.active.erase s).card < p.limit <;> simp [hc]
          rw [runPoolOps, List.foldl_cons, ← runPoolOps, ih, step]
    exact this ops (initPool L)
  constructor
  · have h1 := hinv.1
    rw [hL] at h1
    exact h1
  · intro hr hq
    have hmain := dequeue_active_admits_head (runPoolOps ops (initPool L)) r q rest hinv hr hq
    have h3 := hmain.2.2
    rw [hL] at h3
    exact ⟨hmain.1, hmain.2.1, h3⟩

/-- Witness for C2: pool limit 2, a burst of five enqueues — exactly two
become active, three queue FIFO; dequeuing active request 1 admits
request 3 while the bound holds. -/
theorem pool_limit_and_admission_witness :
    1 ∈ (runPoolOps [.enq 1, .enq 2, .enq 3, .enq 4, .enq 5] (initPool 2)).active ∧
      (runPoolOps [.enq 1, .enq 2, .enq 3, .enq 4, .enq 5] (initPool 2)).queued = [3, 4, 5] ∧
      (runPoolOps [.enq 1, .enq 2, .enq 3, .enq 4, .enq 5] (initPool 2)).active.card ≤ 2 ∧
      3 ∈ (dequeue 1 (runPoolOps [.enq 1, .enq 2, .enq 3, .enq 4, .enq 5] (initPool 2))).active := by
  have h := pool_limit_and_admission 2 [.enq 1, .enq 2, .enq 3, .enq 4, .enq 5] 1 3 [4, 5]
  refine ⟨by decide, by decide, h.1, (h.2 (by decide) (by decide)).1⟩

end NxusDataLoaders

namespace NxusDataLoaders

/-! ## The streaming entity-merge processor

`DeserializingEntityDataProcessor._streamedDataProcessor` (part_006 of
the repository, lines 77-157).  Entities are JavaScript objects: `ref`
is the object reference (identity, preserved when an incoming entity is
semantically equal to the stored one) and `val` the payload compared by
`equalEntities` (the adapter `isEqual`, else lodash structural
equality).  A bucket is a plain string-keyed object, embedded as an
association list. -/

structure Entity where
  ref : Nat
  val : Nat
  deriving DecidableEq, Repr

/-- `nullSerialization.wrapEntity(entity, context)` returns the entity
unchanged (the default serialization of part_006). -/
def wrapEntity (e : Entity) : Entity := e

/-- `equalEntities(entity1, entity2)`: adapter-defined equality, else
lodash `isEqual` — structural equality of the payload, blind to the
object reference. -/
def equalEntities (e1 e2 : Entity) : Bool := e1.val == e2.val

/-- Key validation from the body of `_streamedDataProcessor`
(part_006 lines 98-111): with a configured `keyPrefix`, the key must
split on a dot into exactly `⟨keyPrefix⟩.⟨last⟩` with `last` non-empty;
with an empty `keyPrefix` the whole (non-empty) key is used.  `none`
means the pair is logged and skipped.  (`String.split` of JavaScript is
embedded as `List.splitOn` over the character data.) -/
def entityKeyOf (keyPfx : String) (key : String) : Option String :=
  if keyPfx ≠ "" then
    match (key.data.splitOn '.').map String.mk with
    | [first, last] => if first = keyPfx ∧ last ≠ "" then some last else none
    | _ => none
  else if key ≠ "" then some key else none

structure MergeStaging where
  toDestroy : List String
  toAdd : List (String × Entity)
  deriving DecidableEq, Repr

/-- One iteration of the entity loop of `_streamedDataProcessor`
(part_006 lines 94-132): a `none` value marks the existing entry (if
present) for destruction; a present value is wrapped, staged for
addition when the key is new, has its pending destruction cancelled when
equal to the stored entity (the OLD object reference is kept), and
otherwise replaces the stored entity (old staged for destruction, new
for addition). -/
def mergeStep (keyPfx : String) (bucket : List (String × Entity))
    (st : MergeStaging) (item : String × Option Entity) : MergeStaging :=
  match entityKeyOf keyPfx item.1 with
  | none => st
  | some last =>
      match item.2 with
      | none =>
          if (lookupA bucket last).isSome then
            { st with toDestroy := addSet st.toDestroy last }
          else st
      | some e0 =>
          let e := wrapEntity e0
          match lookupA bucket last with
          | none => { st with toAdd := setA st.toAdd last e }
          | some old =>
              if equalEntities old e then
                { st with toDestroy := st.toDestroy.erase last }
              else
                { toDestroy := addSet st.toDestroy last,
                  toAdd := setA st.toAdd last e }

/-- The provisional destruction marks (part_006 lines 89-90):
`for (let last in bucket) toDestroy.add(last)`.  NOTE: the source
executes this for every call — its own comment says it should happen
only when "replacing all existing entities (not an update)", but no
`header.update` test guards the loop. -/
def initialToDestroy (bucket : List (String × Entity)) : List String :=
  bucket.foldl (fun s p => addSet s p.1) []

/-- The staging accumulated over the whole decoded stream. -/
def stagingOf (keyPfx : String) (bucket : List (String × Entity))
    (stream : List (String × Option Entity)) : MergeStaging :=
  stream.foldl (mergeStep keyPfx bucket)
    { toDestroy := initialToDestroy bucket, toAdd := [] }

structure MergeOutcome where
  bucket : List (String × Entity)
  destroyed : List Entity
  published : Bool
  deriving DecidableEq, Repr

/-- The destruction loop (part_006 lines 148-151): for each marked key,
invoke the stored entity's teardown (`destroy()`) hook and delete the
key.  `destroyed` collects the entities whose hook is invoked. -/
def applyDestroys (bucket : List (String × Entity)) (marks : List String) :
    List (String × Entity) × List Entity :=
  marks.foldl
    (fun acc k =>
      match lookupA acc.1 k with
      | some e => (eraseA acc.1 k, acc.2 ++ [e])
      | none => (eraseA acc.1 k, acc.2))
    (bucket, [])

/-- `DeserializingEntityDataProcessor._streamedDataProcessor`
(part_006 lines 77-157).  `bucket0 = none` embeds an undefined container
property (fresh empty bucket, forced change).  `update` is the
`header.update` flag — the source reads it only for a log line, so it
does not influence the result.  `published = true` embeds the final
`this._container[this._property] = Object.assign({}, bucket)` — a NEW
bucket object is assigned exactly when `changes` holds; otherwise the
container keeps the same bucket object. -/
def streamedDataProcessor (keyPfx : String)
    (bucket0 : Option (List (String × Entity)))
    (stream : List (String × Option Entity)) (update : Bool) : MergeOutcome :=
  let bucket := bucket0.getD []
  let st := stagingOf keyPfx bucket stream
  let changes := bucket0.isNone || decide (0 < st.toAdd.length)
    || decide (0 < st.toDestroy.length)
  if changes then
    let applied := applyDestroys bucket st.toDestroy
    { bucket := st.toAdd.foldl (fun b p => setA b p.1 p.2) applied.1,
      destroyed := applied.2,
      published := true }
  else { bucket := bucket, destroyed := [], published := false }

end NxusDataLoaders

namespace NxusDataLoaders

/-- C4: the code violates the claim.  With `header.update = true` and an
existing non-empty bucket, an existing entry whose key does not occur in
the stream is NOT retained: `_streamedDataProcessor` marks every
existing key for destruction with no `header.update` guard (part_006
lines 89-90, contradicting the comment directly above those lines), so
the entry `a` is removed from the bucket and its teardown hook is
invoked.  Concretely: bucket `{a: ⟨1,10⟩}`, incoming update stream
`[[test.b, ⟨2,20⟩]]` yields bucket `{b: ⟨2,20⟩}` with `⟨1,10⟩`
destroyed. -/
theorem merge_update_destroys_unmentioned_key :
    streamedDataProcessor "test" (some [("a", ⟨1, 10⟩)])
        [("test.b", some ⟨2, 20⟩)] true =
      { bucket := [("b", ⟨2, 20⟩)], destroyed := [⟨1, 10⟩], published := true } := by
  decide

/-- C7: the merge is idempotent with respect to bucket identity:
re-applying the same update stream (`update = true`) to the bucket
produced by a first application, when the re-application stages no
additions and no removals, publishes no new bucket object
(`published = false`, embedding `Object.assign({}, bucket)` NOT being
assigned) and leaves the bucket exactly as it was. -/
theorem merge_second_pass_no_republish (keyPfx : String)
    (bucket0 : Option (List (String × Entity)))
    (stream : List (String × Option Entity))
    (h1 : (stagingOf keyPfx (streamedDataProcessor keyPfx bucket0 stream true).bucket
            stream).toAdd = [])
    (h2 : (stagingOf keyPfx (streamedDataProcessor keyPfx bucket0 stream true).bucket
            stream).toDestroy = []) :
    streamedDataProcessor keyPfx
        (some (streamedDataProcessor keyPfx bucket0 stream true).bucket) stream true =
      { bucket := (streamedDataProcessor keyPfx bucket0 stream true).bucket,
        destroyed := [], published := false } := by
  generalize (streamedDataProcessor keyPfx bucket0 stream true).bucket = b1 at h1 h2 ⊢
  unfold streamedDataProcessor
  simp [h1, h2]

/-- Witness for C7: bucket `{a: ⟨1,5⟩}` merged with the update stream
`[[test.a, ⟨2,5⟩]]` (payload-equal entity, fresh reference) stages
nothing on the second pass, so the second pass republishes nothing. -/
theorem merge_second_pass_no_republish_witness :
    (stagingOf "test"
        (streamedDataProcessor "test" (some [("a", ⟨1, 5⟩)])
          [("test.a", some ⟨2, 5⟩)] true).bucket [("test.a", some ⟨2, 5⟩)]).toAdd = [] ∧
      streamedDataProcessor "test"
          (some (streamedDataProcessor "test" (some [("a", ⟨1, 5⟩)])
            [("test.a", some ⟨2, 5⟩)] true).bucket) [("test.a", some ⟨2, 5⟩)] true =
        { bucket := (streamedDataProcessor "test" (some [("a", ⟨1, 5⟩)])
            [("test.a", some ⟨2, 5⟩)] true).bucket,
          destroyed := [], published := false } :=
  ⟨by decide,
    merge_second_pass_no_republish "test" (some [("a", ⟨1, 5⟩)])
      [("test.a", some ⟨2, 5⟩)] (by decide) (by decide)⟩

end NxusDataLoaders

namespace NxusDataLoaders

/-! ## Singleton data processor — `DeserializingSingletonDataProcessor`
(part_005). -/

structure SingletonState where
  value : Option Entity
  key : Option String
  deriving DecidableEq, Repr

/-- `DeserializingSingletonDataProcessor._getBucket` (part_005 lines
16-21): build a working bucket holding the current singleton entity (if
any) under the remembered key; the accompanying `changes` flag is
`false`.  (When the property was assigned without a remembered key, the
JavaScript bucket key coerces to the string `undefined`.) -/
def singletonGetBucket (st : SingletonState) : List (String × Entity) :=
  match st.value with
  | none => []
  | some e =>
      match st.key with
      | some k => [(k, e)]
      | none => [("undefined", e)]

/-- `DeserializingSingletonDataProcessor._setBucket` (part_005 lines
23-35): more than one key in the merged bucket is a fatal error; zero
keys clear the property and the remembered key; exactly one key stores
that entity and remembers its key. -/
def singletonSetBucket (bucket : List (String × Entity)) :
    Except String SingletonState :=
  if 1 < (keysA bucket).length then
    .error "received multiple data entities, at most one expected"
  else
    match bucket with
    | [] => .ok { value := none, key := none }
    | (k, e) :: _ => .ok { value := some e, key := some k }

/-- Modelled from the spec: the base class `DeserializingDataProcessor`
(file `DeserializingDataProcessor.js`, imported by part_005 and by
`src/index.js` but not itself under `src/`) obtains the working bucket
from `_getBucket()`, runs the streaming entity merge over it, and
publishes the merged bucket through `_setBucket()` (spec section 4.3 and
its singleton variant).  The merge itself is the embedded
`streamedDataProcessor`; `_setBucket` is from the part_005 source. -/
def singletonStreamedDataProcessor (keyPfx : String) (st : SingletonState)
    (stream : List (String × Option Entity)) (update : Bool) :
    Except String SingletonState :=
  singletonSetBucket
    (streamedDataProcessor keyPfx (some (singletonGetBucket st)) stream update).bucket

end NxusDataLoaders

namespace NxusDataLoaders

/-- C9: a merge on the singleton-valued processor that delivers more
than one live entity to the bucket raises the fatal
"received multiple data entities" error instead of completing
normally. -/
theorem singleton_multi_entity_fatal (keyPfx : String) (st : SingletonState)
    (stream : List (String × Option Entity)) (update : Bool)
    (h : 1 < (keysA (streamedDataProcessor keyPfx (some (singletonGetBucket st))
          stream update).bucket).length) :
    singletonStreamedDataProcessor keyPfx st stream update =
      .error "received multiple data entities, at most one expected" := by
  unfold singletonStreamedDataProcessor singletonSetBucket
  rw [if_pos h]

/-- Witness for C9: an empty singleton fed a stream of two distinct live
entities errors out. -/
theorem singleton_multi_entity_fatal_witness :
    1 < (keysA (streamedDataProcessor "test" (some (singletonGetBucket ⟨none, none⟩))
          [("test.a", some ⟨1, 1⟩), ("test.b", some ⟨2, 2⟩)] false).bucket).length ∧
      singletonStreamedDataProcessor "test" ⟨none, none⟩
          [("test.a", some ⟨1, 1⟩), ("test.b", some ⟨2, 2⟩)] false =
        .error "received multiple data entities, at most one expected" :=
  ⟨by decide,
    singleton_multi_entity_fatal "test" ⟨none, none⟩
      [("test.a", some ⟨1, 1⟩), ("test.b", some ⟨2, 2⟩)] false (by decide)⟩

end NxusDataLoaders

namespace NxusDataLoaders

/-! ## Shared loader registry — `SharedDataLoaders` (src/SharedDataLoaders.js)

The registry is `Map(Subclass → Map(objectHash(config) → spec))`.
Subclasses, configurations, processors and activity targets are opaque
values embedded as numbers; loader instances carry a fresh numeric
identity (`new Subclass(...)`) plus their subclass
(`loader.constructor`). -/

inductive SpecState where
  | unset
  | loading
  | loaded
  deriving DecidableEq, Repr

structure Loader where
  id : Nat
  subclass : Nat
  deriving DecidableEq, Repr

structure LoaderSpec where
  config : Nat
  loader : Loader
  processors : List Nat
  targets : List (Nat × Nat)
  state : SpecState
  catchups : List Nat
  objects : List (String × Entity)
  headerUpdate : Bool
  pendingCatchup : Bool
  deriving DecidableEq, Repr

structure Registry where
  table : List (Nat × List (Nat × LoaderSpec))
  nextId : Nat
  deriving DecidableEq, Repr

def emptyRegistry : Registry := { table := [], nextId := 0 }

/-- Target registration (lines 77-81): create the per-target reference
count at 0 on first sight, then increment.  Stored counts are therefore
always at least 1. -/
def incTarget (ts : List (Nat × Nat)) (t : Nat) : List (Nat × Nat) :=
  match lookupA ts t with
  | none => setA ts t 1
  | some c => setA ts t (c + 1)

/-- Target deregistration (lines 107-113): decrement and drop the entry
when the count reaches 0 (counts stored are always ≥ 1, see
`incTarget`). -/
def decTarget (ts : List (Nat × Nat)) (t : Nat) : List (Nat × Nat) :=
  match lookupA ts t with
  | none => ts
  | some c => if c - 1 = 0 then eraseA ts t else setA ts t (c - 1)

/-- The fresh specification constructed when no match exists
(lines 68-75): empty processor set, empty targets, empty mirror, state
`''` (unset), no catch-ups; the loader is a fresh `Subclass` instance
(fresh identity drawn from the registry's id supply). -/
def refNewSpec (Subclass config nextId : Nat) : LoaderSpec :=
  { config := config, loader := { id := nextId, subclass := Subclass },
    processors := [], targets := [], state := .unset, catchups := [],
    objects := [], headerUpdate := false, pendingCatchup := false }

/-- The in-place updates `referenceDataLoader` performs on the (found or
fresh) specification (lines 76-85): add the processor, bump the target
reference, and — when the specification has already started a load
(`spec.state` truthy) — add the processor to `catchups`, arming the
deferred catch-up task when the state is `loaded`. -/
def refUpdatedSpec (s : LoaderSpec) (processor : Nat) (target : Option Nat) :
    LoaderSpec :=
  let s1 := { s with processors := addSet s.processors processor }
  let s2 := match target with
    | none => s1
    | some t => { s1 with targets := incTarget s1.targets t }
  if s2.state ≠ .unset then
    { s2 with
      catchups := addSet s2.catchups processor,
      pendingCatchup := s2.pendingCatchup || decide (s2.state = .loaded) }
  else s2

/-- `SharedDataLoaders.referenceDataLoader` (lines 63-87):
deduplicate by `(Subclass, objectHash(config))`, create the
specification on first reference, register the processor and target,
and return the shared loader instance. -/
def referenceDataLoader (objectHash : Nat → Nat) (Subclass config : Nat)
    (processor : Nat) (target : Option Nat) (σ : Registry) : Loader × Registry :=
  let loaders := (lookupA σ.table Subclass).getD []
  let h := objectHash config
  match lookupA loaders h with
  | some s =>
      ((refUpdatedSpec s processor target).loader,
        { table := setA σ.table Subclass
            (setA loaders h (refUpdatedSpec s processor target)),
          nextId := σ.nextId })
  | none =>
      ((refUpdatedSpec (refNewSpec Subclass config σ.nextId) processor target).loader,
        { table := setA σ.table Subclass
            (setA loaders h (refUpdatedSpec (refNewSpec Subclass config σ.nextId)
              processor target)),
          nextId := σ.nextId + 1 })

/-- The search loop of `dereferenceDataLoader` (lines 101-103): first
specification whose loader is the given instance. -/
def findLoaderSpec (loaders : List (Nat × LoaderSpec)) (l : Loader) :
    Option (Nat × LoaderSpec) :=
  match loaders with
  | [] => none
  | (h, s) :: t => if s.loader = l then some (h, s) else findLoaderSpec t l

/-- The specification after a dereference that does not delete it:
processor removed, target reference count decremented. -/
def derefUpdatedSpec (s : LoaderSpec) (processor : Nat) (target : Option Nat) :
    LoaderSpec :=
  let s1 := { s with processors := s.processors.erase processor }
  match target with
  | none => s1
  | some t => { s1 with targets := decTarget s1.targets t }

/-- `SharedDataLoaders.dereferenceDataLoader` (lines 97-121).  Returns
(deleted?, loaders destroyed during the call, new registry): when the
processor set becomes empty the loader's `destroy()` runs (once) and the
specification is removed from the registry. -/
def dereferenceDataLoader (l : Loader) (processor : Nat) (target : Option Nat)
    (σ : Registry) : Bool × List Nat × Registry :=
  match lookupA σ.table l.subclass with
  | none => (false, [], σ)
  | some loaders =>
      match findLoaderSpec loaders l with
      | none => (false, [], σ)
      | some (h, s) =>
          if processor ∈ s.processors then
            if (derefUpdatedSpec s processor target).processors.length = 0 then
              (true, [l.id],
                { table := setA σ.table l.subclass (eraseA loaders h),
                  nextId := σ.nextId })
            else
              (true, [],
                { table := setA σ.table l.subclass
                    (setA loaders h (derefUpdatedSpec s processor target)),
                  nextId := σ.nextId })
          else (false, [], σ)

/-- Mirror maintenance inside `_sharedProcessor` (lines 133-141): a
stream item with a value is `set` into `spec.objects`, a `null` item is
deleted from it. -/
def mirrorStep (m : List (String × Entity)) (item : String × Option Entity) :
    List (String × Entity) :=
  match item.2 with
  | some e => setA m item.1 e
  | none => eraseA m item.1

/-- Net effect of one `_sharedProcessor` load cycle (lines 123-144) on
the specification: the mirror is cleared first unless `header.update`,
then updated item by item; the header is recorded; the state ends
`loaded`; a deferred catch-up task is armed when catch-ups are pending.
(Every registered processor is fed the same stream items, in order,
through per-processor forwarders.) -/
def sharedProcessorRun (spec : LoaderSpec)
    (stream : List (String × Option Entity)) (update : Bool) : LoaderSpec :=
  { spec with
    state := .loaded,
    headerUpdate := update,
    objects := stream.foldl mirrorStep (if update then spec.objects else []),
    pendingCatchup := spec.pendingCatchup || decide (0 < spec.catchups.length) }

/-- The synthetic catch-up stream (lines 164-172): each mirrored entry
framed as one stream item. -/
def catchupStream (objects : List (String × Entity)) :
    List (String × Option Entity) :=
  objects.map (fun p => (p.1, some p.2))

/-- The deferred task armed by `_delayedCatchup` (lines 146-154), run
one scheduling tick later: if the specification is still `loaded`,
replay the mirrored objects (with the recorded header) to the pending
catch-up processors; otherwise do nothing. -/
def runDelayedCatchup (spec : LoaderSpec) :
    Option (List (String × Option Entity) × Bool) :=
  if spec.state = .loaded then some (catchupStream spec.objects, spec.headerUpdate)
  else none

/-- Well-formedness of the registry maps: JavaScript `Map`s never hold a
key twice. -/
def RegWF (σ : Registry) : Prop :=
  (keysA σ.table).Nodup ∧ ∀ p ∈ σ.table, (keysA p.2).Nodup

instance (σ : Registry) : Decidable (RegWF σ) := by
  unfold RegWF
  infer_instance

/-- The number of specification entries stored for a
(subclass, fingerprint) pair. -/
def countSpec (σ : Registry) (Subclass h : Nat) : Nat :=
  (σ.table.map (fun p => if p.1 = Subclass then (keysA p.2).count h else 0)).sum

end NxusDataLoaders

namespace NxusDataLoaders

theorem lookupA_isSome_iff {κ α : Type} [DecidableEq κ] (m : List (κ × α)) (k : κ) :
    (lookupA m k).isSome ↔ k ∈ keysA m := by
  induction m with
  | nil => simp [lookupA, keysA]
  | cons p t ih =>
      obtain ⟨k1, v1⟩ := p
      by_cases h : k1 = k
      · subst h; simp [lookupA, keysA]
      · simp only [lookupA, if_neg h, keysA, List.map_cons, List.mem_cons, ih]
        constructor
        · intro hs; exact Or.inr (by simpa [keysA] using hs)
        · intro hs
          rcases hs with hs | hs
          · exact absurd hs.symm h
          · simpa [keysA] using hs

theorem lookupA_mem {κ α : Type} [DecidableEq κ] (m : List (κ × α)) (k : κ) (v : α)
    (h : lookupA m k = some v) : (k, v) ∈ m := by
  induction m with
  | nil => simp [lookupA] at h
  | cons p t ih =>
      obtain ⟨k1, v1⟩ := p
      by_cases h1 : k1 = k
      · subst h1
        rw [lookupA, if_pos rfl] at h
        obtain rfl : v1 = v := by injection h
        exact List.mem_cons_self _ _
      · rw [lookupA, if_neg h1] at h
        exact List.mem_cons_of_mem _ (ih h)

theorem mem_setA {κ α : Type} [DecidableEq κ] (m : List (κ × α)) (k : κ) (v : α)
    (p : κ × α) (h : p ∈ setA m k v) : p = (k, v) ∨ p ∈ m := by
  induction m with
  | nil => simpa [setA] using h
  | cons q t ih =>
      obtain ⟨k1, v1⟩ := q
      by_cases h1 : k1 = k
      · subst h1
        rw [setA, if_pos rfl] at h
        rcases List.mem_cons.mp h with h2 | h2
        · exact Or.inl h2
        · exact Or.inr (List.mem_cons_of_mem _ h2)
      · rw [setA, if_neg h1] at h
        rcases List.mem_cons.mp h with h2 | h2
        · exact Or.inr (h2 ▸ List.mem_cons_self _ _)
        · rcases ih h2 with h3 | h3
          · exact Or.inl h3
          · exact Or.inr (List.mem_cons_of_mem _ h3)

theorem eraseA_sublist {κ α : Type} [DecidableEq κ] (m : List (κ × α)) (k : κ) :
    (eraseA m k).Sublist m := by
  induction m with
  | nil => simp [eraseA]
  | cons q t ih =>
      obtain ⟨k1, v1⟩ := q
      by_cases h1 : k1 = k
      · rw [eraseA, if_pos h1]
        exact List.sublist_cons_self _ _
      · rw [eraseA, if_neg h1]
        exact List.Sublist.cons₂ _ ih

theorem mem_eraseA {κ α : Type} [DecidableEq κ] (m : List (κ × α)) (k : κ)
    (p : κ × α) (h : p ∈ eraseA m k) : p ∈ m :=
  (eraseA_sublist m k).mem h

theorem nodup_keysA_eraseA {κ α : Type} [DecidableEq κ] (m : List (κ × α)) (k : κ)
    (h : (keysA m).Nodup) : (keysA (eraseA m k)).Nodup :=
  List.Nodup.sublist (List.Sublist.map Prod.fst (eraseA_sublist m k)) h

theorem not_mem_eraseA_key {κ α : Type} [DecidableEq κ] (m : List (κ × α)) (k : κ)
    (v : α) (h : (keysA m).Nodup) : (k, v) ∉ eraseA m k := by
  induction m with
  | nil => simp [eraseA]
  | cons q t ih =>
      obtain ⟨k1, v1⟩ := q
      simp only [keysA, List.map_cons, List.nodup_cons] at h
      by_cases h1 : k1 = k
      · subst h1
        rw [eraseA, if_pos rfl]
        intro hmem
        exact h.1 (List.mem_map.mpr ⟨(k1, v), hmem, rfl⟩)
      · rw [eraseA, if_neg h1]
        intro hmem
        rcases List.mem_cons.mp hmem with h2 | h2
        · exact h1 (by injection h2 with h3 h4; exact h3.symm ▸ rfl)
        · exact ih (by simpa [keysA] using h.2) h2

theorem lookupA_eraseA_self {κ α : Type} [DecidableEq κ] (m : List (κ × α)) (k : κ)
    (h : (keysA m).Nodup) : lookupA (eraseA m k) k = none := by
  cases hs : lookupA (eraseA m k) k with
  | none => rfl
  | some v => exact absurd (lookupA_mem _ _ _ hs) (not_mem_eraseA_key m k v h)

theorem count_keysA_eq_one {κ α : Type} [DecidableEq κ] (m : List (κ × α)) (k : κ)
    (hnd : (keysA m).Nodup) (hmem : k ∈ keysA m) : (keysA m).count k = 1 := by
  have hle := List.nodup_iff_count_le_one.mp hnd k
  have hge := List.count_pos_iff.mpr hmem
  omega

end NxusDataLoaders

namespace NxusDataLoaders

theorem refUpdatedSpec_loader (s : LoaderSpec) (p : Nat) (t : Option Nat) :
    (refUpdatedSpec s p t).loader = s.loader := by
  unfold refUpdatedSpec
  cases t <;> dsimp only [] <;> split <;> rfl

theorem inner_nodup (σ : Registry) (sub : Nat) (hWF : RegWF σ) :
    (keysA ((lookupA σ.table sub).getD [])).Nodup := by
  cases hl : lookupA σ.table sub with
  | none => simp [keysA]
  | some inner => exact hWF.2 (sub, inner) (lookupA_mem _ _ _ hl)

theorem referenceDataLoader_of_found (oh : Nat → Nat) (sub c p : Nat)
    (t : Option Nat) (σ : Registry) (s : LoaderSpec)
    (hfound : lookupA ((lookupA σ.table sub).getD []) (oh c) = some s) :
    referenceDataLoader oh sub c p t σ =
      ((refUpdatedSpec s p t).loader,
        { table := setA σ.table sub
            (setA ((lookupA σ.table sub).getD []) (oh c) (refUpdatedSpec s p t)),
          nextId := σ.nextId }) := by
  unfold referenceDataLoader
  simp only [hfound]

theorem referenceDataLoader_of_fresh (oh : Nat → Nat) (sub c p : Nat)
    (t : Option Nat) (σ : Registry)
    (hfresh : lookupA ((lookupA σ.table sub).getD []) (oh c) = none) :
    referenceDataLoader oh sub c p t σ =
      ((refUpdatedSpec (refNewSpec sub c σ.nextId) p t).loader,
        { table := setA σ.table sub
            (setA ((lookupA σ.table sub).getD []) (oh c)
              (refUpdatedSpec (refNewSpec sub c σ.nextId) p t)),
          nextId := σ.nextId + 1 }) := by
  unfold referenceDataLoader
  simp only [hfresh]

theorem referenceDataLoader_table (oh : Nat → Nat) (sub c p : Nat)
    (t : Option Nat) (σ : Registry) :
    ∃ spec1 : LoaderSpec,
      (referenceDataLoader oh sub c p t σ).1 = spec1.loader ∧
        (referenceDataLoader oh sub c p t σ).2.table =
          setA σ.table sub (setA ((lookupA σ.table sub).getD []) (oh c) spec1) := by
  cases hc : lookupA ((lookupA σ.table sub).getD []) (oh c) with
  | some s =>
      exact ⟨refUpdatedSpec s p t, by rw [referenceDataLoader_of_found oh sub c p t σ s hc],
        by rw [referenceDataLoader_of_found oh sub c p t σ s hc]⟩
  | none =>
      exact ⟨refUpdatedSpec (refNewSpec sub c σ.nextId) p t,
        by rw [referenceDataLoader_of_fresh oh sub c p t σ hc],
        by rw [referenceDataLoader_of_fresh oh sub c p t σ hc]⟩

theorem RegWF_referenceDataLoader (oh : Nat → Nat) (sub c p : Nat)
    (t : Option Nat) (σ : Registry) (hWF : RegWF σ) :
    RegWF (referenceDataLoader oh sub c p t σ).2 := by
  obtain ⟨spec1, _, htab⟩ := referenceDataLoader_table oh sub c p t σ
  have hinner := inner_nodup σ sub hWF
  constructor
  · rw [htab]
    exact nodup_keysA_setA _ _ _ hWF.1
  · intro q hq
    rw [htab] at hq
    rcases mem_setA _ _ _ _ hq with he | hm
    · rw [he]
      exact nodup_keysA_setA _ _ _ hinner
    · exact hWF.2 q hm

theorem countSpecTable (table : List (Nat × List (Nat × LoaderSpec))) (sub h : Nat)
    (hnd : (keysA table).Nodup) :
    (table.map (fun p => if p.1 = sub then (keysA p.2).count h else 0)).sum =
      (match lookupA table sub with
        | some inner => (keysA inner).count h
        | none => 0) := by
  induction table with
  | nil => simp [lookupA]
  | cons q t ih =>
      obtain ⟨k1, v1⟩ := q
      simp only [keysA, List.map_cons, List.nodup_cons] at hnd
      have iht := ih (by simpa [keysA] using hnd.2)
      by_cases h1 : k1 = sub
      · subst h1
        have hnone : lookupA t k1 = none :=
          lookupA_none_of_not_mem_keysA t k1 (by simpa [keysA] using hnd.1)
        simp only [List.map_cons, List.sum_cons, if_pos rfl, lookupA, if_pos rfl]
        rw [iht, hnone]
        simp
      · simp only [List.map_cons, List.sum_cons, if_neg h1, lookupA, if_neg h1]
        rw [iht]
        simp

theorem countSpec_of_lookup (σ : Registry) (sub h : Nat)
    (inner : List (Nat × LoaderSpec)) (hWF : RegWF σ)
    (hl : lookupA σ.table sub = some inner) :
    countSpec σ sub h = (keysA inner).count h := by
  unfold countSpec
  rw [countSpecTable σ.table sub h hWF.1, hl]

end NxusDataLoaders

namespace NxusDataLoaders

/-- C1: two `referenceDataLoader` calls with the same loader subclass
and configuration values whose object-hash fingerprints are equal return
the identical loader instance, and after both calls exactly one
specification entry exists in the registry for that
(subclass, fingerprint) pair. -/
theorem referenceDataLoader_dedup (objectHash : Nat → Nat)
    (Subclass c1 c2 p1 p2 : Nat) (t1 t2 : Option Nat) (σ : Registry)
    (hWF : RegWF σ) (hfp : objectHash c1 = objectHash c2) :
    (referenceDataLoader objectHash Subclass c2 p2 t2
        (referenceDataLoader objectHash Subclass c1 p1 t1 σ).2).1 =
      (referenceDataLoader objectHash Subclass c1 p1 t1 σ).1 ∧
      countSpec (referenceDataLoader objectHash Subclass c2 p2 t2
          (referenceDataLoader objectHash Subclass c1 p1 t1 σ).2).2 Subclass
        (objectHash c1) = 1 := by
  obtain ⟨spec1, hload1, htab1⟩ :=
    referenceDataLoader_table objectHash Subclass c1 p1 t1 σ
  have hWF1 : RegWF (referenceDataLoader objectHash Subclass c1 p1 t1 σ).2 :=
    RegWF_referenceDataLoader _ _ _ _ _ _ hWF
  have hl1 : lookupA (referenceDataLoader objectHash Subclass c1 p1 t1 σ).2.table
        Subclass =
      some (setA ((lookupA σ.table Subclass).getD []) (objectHash c1) spec1) := by
    rw [htab1]
    exact lookupA_setA_self _ _ _
  have hfound2 :
      lookupA ((lookupA (referenceDataLoader objectHash Subclass c1 p1 t1 σ).2.table
          Subclass).getD []) (objectHash c2) = some spec1 := by
    rw [hl1]
    simp only [Option.getD_some]
    rw [← hfp]
    exact lookupA_setA_self _ _ _
  have h2 := referenceDataLoader_of_found objectHash Subclass c2 p2 t2
    (referenceDataLoader objectHash Subclass c1 p1 t1 σ).2 spec1 hfound2
  constructor
  · rw [h2]
    simpa using (refUpdatedSpec_loader spec1 p2 t2).trans hload1.symm
  · have hWF2 : RegWF (referenceDataLoader objectHash Subclass c2 p2 t2
        (referenceDataLoader objectHash Subclass c1 p1 t1 σ).2).2 :=
      RegWF_referenceDataLoader _ _ _ _ _ _ hWF1
    have hlook2 : lookupA (referenceDataLoader objectHash Subclass c2 p2 t2
          (referenceDataLoader objectHash Subclass c1 p1 t1 σ).2).2.table Subclass =
        some (setA ((lookupA (referenceDataLoader objectHash Subclass c1 p1 t1
            σ).2.table Subclass).getD []) (objectHash c2)
          (refUpdatedSpec spec1 p2 t2)) := by
      rw [h2]
      exact lookupA_setA_self _ _ _
    rw [countSpec_of_lookup _ _ _ _ hWF2 hlook2, hfp, keysA_setA]
    have hsome : (lookupA ((lookupA (referenceDataLoader objectHash Subclass c1 p1
        t1 σ).2.table Subclass).getD []) (objectHash c2)).isSome := by
      rw [hfound2]
      rfl
    rw [if_pos hsome]
    exact count_keysA_eq_one _ _
      (inner_nodup (referenceDataLoader objectHash Subclass c1 p1 t1 σ).2 Subclass hWF1)
      ((lookupA_isSome_iff _ _).mp hsome)

/-- Witness for C1: configurations 11 and 12 fingerprint equal under the
hash `c / 10`; both references return the same loader and the registry
holds exactly one specification for (subclass 7, fingerprint 1). -/
theorem referenceDataLoader_dedup_witness :
    RegWF emptyRegistry ∧ (fun c => c / 10) 11 = (fun c => c / 10) 12 ∧
      ((referenceDataLoader (fun c => c / 10) 7 12 102 (some 3)
          (referenceDataLoader (fun c => c / 10) 7 11 101 none emptyRegistry).2).1 =
        (referenceDataLoader (fun c => c / 10) 7 11 101 none emptyRegistry).1 ∧
        countSpec (referenceDataLoader (fun c => c / 10) 7 12 102 (some 3)
            (referenceDataLoader (fun c => c / 10) 7 11 101 none emptyRegistry).2).2 7
          ((fun c => c / 10) 11) = 1) :=
  ⟨by decide, by decide,
    referenceDataLoader_dedup (fun c => c / 10) 7 11 12 101 102 none (some 3)
      emptyRegistry (by decide) (by decide)⟩

end NxusDataLoaders

namespace NxusDataLoaders

theorem findLoaderSpec_none_of_all (loaders : List (Nat × LoaderSpec)) (l : Loader)
    (h : ∀ q ∈ loaders, q.2.loader ≠ l) : findLoaderSpec loaders l = none := by
  induction loaders with
  | nil => rfl
  | cons q t ih =>
      obtain ⟨h1, s1⟩ := q
      rw [findLoaderSpec, if_neg (h (h1, s1) (List.mem_cons_self _ _))]
      exact ih (fun q hq => h q (List.mem_cons_of_mem _ hq))

theorem derefUpdatedSpec_loader (s : LoaderSpec) (p : Nat) (t : Option Nat) :
    (derefUpdatedSpec s p t).loader = s.loader := by
  cases t <;> rfl

theorem derefUpdatedSpec_processors (s : LoaderSpec) (p : Nat) (t : Option Nat) :
    (derefUpdatedSpec s p t).processors = s.processors.erase p := by
  cases t <;> rfl

/-- C6: `dereferenceDataLoader` destroys a specification exactly when
the last processor leaves.  Scenario (a): a dereference removing the
final processor deletes the specification from the registry (its
fingerprint no longer resolves), invokes the loader's `destroy()`
exactly once in that call, and any further dereference of the same
loader is a no-op reporting `false` with no further destroy.
Scenario (b): a dereference that leaves at least one processor
registered reports `true` but destroys nothing; the specification stays
registered under its fingerprint with its loader instance intact and
only the processor removed. -/
theorem dereferenceDataLoader_exactly_once
    (σa : Registry) (la : Loader) (proca : Nat) (ta : Option Nat)
    (loadersa : List (Nat × LoaderSpec)) (ha : Nat) (speca : LoaderSpec)
    (σb : Registry) (lb : Loader) (procb : Nat) (tb : Option Nat)
    (loadersb : List (Nat × LoaderSpec)) (hb : Nat) (specb : LoaderSpec)
    (p2 : Nat) (t2 : Option Nat)
    (hWFa : RegWF σa)
    (hla : lookupA σa.table la.subclass = some loadersa)
    (hfa : findLoaderSpec loadersa la = some (ha, speca))
    (hpa : proca ∈ speca.processors)
    (hlasta : speca.processors.erase proca = [])
    (huniqa : ∀ q ∈ loadersa, q.2.loader = la → q = (ha, speca))
    (hlb : lookupA σb.table lb.subclass = some loadersb)
    (hfb : findLoaderSpec loadersb lb = some (hb, specb))
    (hpb : procb ∈ specb.processors)
    (hkeepb : specb.processors.erase procb ≠ []) :
    dereferenceDataLoader la proca ta σa =
        (true, [la.id],
          { table := setA σa.table la.subclass (eraseA loadersa ha),
            nextId := σa.nextId }) ∧
      lookupA (eraseA loadersa ha) ha = none ∧
      dereferenceDataLoader la p2 t2
          { table := setA σa.table la.subclass (eraseA loadersa ha),
            nextId := σa.nextId } =
        (false, [],
          { table := setA σa.table la.subclass (eraseA loadersa ha),
            nextId := σa.nextId }) ∧
      dereferenceDataLoader lb procb tb σb =
        (true, [],
          { table := setA σb.table lb.subclass
              (setA loadersb hb (derefUpdatedSpec specb procb tb)),
            nextId := σb.nextId }) ∧
      lookupA (setA loadersb hb (derefUpdatedSpec specb procb tb)) hb =
        some (derefUpdatedSpec specb procb tb) ∧
      (derefUpdatedSpec specb procb tb).loader = specb.loader ∧
      (derefUpdatedSpec specb procb tb).processors = specb.processors.erase procb := by
  have hnodupa : (keysA loadersa).Nodup :=
    hWFa.2 (la.subclass, loadersa) (lookupA_mem _ _ _ hla)
  have hlena : (derefUpdatedSpec speca proca ta).processors.length = 0 := by
    rw [derefUpdatedSpec_processors, hlasta]
    rfl
  have hlenb : ¬(derefUpdatedSpec specb procb tb).processors.length = 0 := by
    rw [derefUpdatedSpec_processors]
    simpa [List.length_eq_zero] using hkeepb
  refine ⟨?_, lookupA_eraseA_self loadersa ha hnodupa, ?_, ?_,
    lookupA_setA_self _ _ _, derefUpdatedSpec_loader specb procb tb,
    derefUpdatedSpec_processors specb procb tb⟩
  · unfold dereferenceDataLoader
    simp only [hla, hfa, if_pos hpa, if_pos hlena]
  · have hnone : findLoaderSpec (eraseA loadersa ha) la = none := by
      apply findLoaderSpec_none_of_all
      intro q hq he
      have hq2 : q = (ha, speca) := huniqa q (mem_eraseA _ _ _ hq) he
      rw [hq2] at hq
      exact not_mem_eraseA_key loadersa ha speca hnodupa hq
    unfold dereferenceDataLoader
    simp only [lookupA_setA_self, hnone]
  · unfold dereferenceDataLoader
    simp only [hlb, hfb, if_pos hpb, if_neg hlenb]

/-- Registry fixtures for the dereference witness: one shared
specification referenced by a single processor (101), and one referenced
by two processors (101, 102). -/
def wLoader : Loader := { id := 0, subclass := 7 }

def wRegistryOne : Registry :=
  (referenceDataLoader (fun c => c) 7 5 101 none emptyRegistry).2

def wRegistryTwo : Registry :=
  (referenceDataLoader (fun c => c) 7 5 102 none wRegistryOne).2

def wSpecOne : LoaderSpec :=
  { config := 5, loader := wLoader, processors := [101], targets := [],
    state := .unset, catchups := [], objects := [], headerUpdate := false,
    pendingCatchup := false }

def wSpecTwo : LoaderSpec := { wSpecOne with processors := [101, 102] }

/-- Witness for C6: dereferencing the only processor destroys the loader
(id 0) and deletes the specification; dereferencing one of two
processors destroys nothing. -/
theorem dereferenceDataLoader_exactly_once_witness :
    dereferenceDataLoader wLoader 101 none wRegistryOne =
        (true, [0],
          { table := setA wRegistryOne.table 7 (eraseA [(5, wSpecOne)] 5),
            nextId := wRegistryOne.nextId }) ∧
      dereferenceDataLoader wLoader 101 none wRegistryTwo =
        (true, [],
          { table := setA wRegistryTwo.table 7
              (setA [(5, wSpecTwo)] 5 (derefUpdatedSpec wSpecTwo 101 none)),
            nextId := wRegistryTwo.nextId }) := by
  have h := dereferenceDataLoader_exactly_once wRegistryOne wLoader 101 none
    [(5, wSpecOne)] 5 wSpecOne wRegistryTwo wLoader 101 none [(5, wSpecTwo)] 5
    wSpecTwo 101 none (by decide) (by decide) (by decide) (by decide) (by decide)
    (by decide) (by decide) (by decide) (by decide) (by decide)
  exact ⟨h.1, h.2.2.2.1⟩

end NxusDataLoaders

namespace NxusDataLoaders

theorem mem_addSet_self {κ : Type} [DecidableEq κ] (l : List κ) (a : κ) :
    a ∈ addSet l a := by
  unfold addSet
  by_cases h : a ∈ l <;> simp [h]

theorem refUpdatedSpec_catchups_loaded (s : LoaderSpec) (p : Nat) (t : Option Nat)
    (h : s.state = .loaded) :
    (refUpdatedSpec s p t).catchups = addSet s.catchups p ∧
      (refUpdatedSpec s p t).pendingCatchup = true := by
  unfold refUpdatedSpec
  cases t <;> simp [h]

/-- C5: a processor that joins through `referenceDataLoader` after the
specification reached `loaded` is recorded for catch-up with a deferred
replay armed; when the deferred task runs with the state still `loaded`
it replays the mirrored objects map as a synthetic stream under the
recorded header, and the bucket a fresh joiner merges from that replay
equals the bucket a live full load (`update = false`) of the same
snapshot would produce; when the deferred task runs after the state has
left `loaded`, nothing is replayed. -/
theorem catchup_replay_matches_full_load (keyPfx : String)
    (spec spec2 : LoaderSpec) (proc : Nat) (target : Option Nat)
    (h1 : spec.state = .loaded) (h2 : spec2.state ≠ .loaded) :
    proc ∈ (refUpdatedSpec spec proc target).catchups ∧
      (refUpdatedSpec spec proc target).pendingCatchup = true ∧
      runDelayedCatchup spec = some (catchupStream spec.objects, spec.headerUpdate) ∧
      (streamedDataProcessor keyPfx none (catchupStream spec.objects)
          spec.headerUpdate).bucket =
        (streamedDataProcessor keyPfx none (catchupStream spec.objects) false).bucket ∧
      runDelayedCatchup spec2 = none := by
  obtain ⟨hc, hp⟩ := refUpdatedSpec_catchups_loaded spec proc target h1
  refine ⟨?_, hp, ?_, rfl, ?_⟩
  · rw [hc]
    exact mem_addSet_self _ _
  · unfold runDelayedCatchup
    rw [if_pos h1]
  · unfold runDelayedCatchup
    rw [if_neg h2]

/-- Witness for C5: a loaded specification mirroring one object replays
it to the late joiner (processor 102); a loading specification replays
nothing. -/
theorem catchup_replay_matches_full_load_witness :
    ({ config := 5, loader := { id := 0, subclass := 7 }, processors := [101],
        targets := [], state := .loaded, catchups := [],
        objects := [("test.a", { ref := 1, val := 1 })], headerUpdate := true,
        pendingCatchup := false } : LoaderSpec).state = SpecState.loaded ∧
      ({ config := 5, loader := { id := 0, subclass := 7 }, processors := [101],
          targets := [], state := .loading, catchups := [], objects := [],
          headerUpdate := false, pendingCatchup := false } : LoaderSpec).state ≠
        SpecState.loaded ∧
      runDelayedCatchup
          { config := 5, loader := { id := 0, subclass := 7 }, processors := [101],
            targets := [], state := .loaded, catchups := [],
            objects := [("test.a", { ref := 1, val := 1 })], headerUpdate := true,
            pendingCatchup := false } =
        some (catchupStream [("test.a", { ref := 1, val := 1 })], true) :=
  ⟨by decide, by decide,
    (catchup_replay_matches_full_load "test"
      { config := 5, loader := { id := 0, subclass := 7 }, processors := [101],
        targets := [], state := .loaded, catchups := [],
        objects := [("test.a", { ref := 1, val := 1 })], headerUpdate := true,
        pendingCatchup := false }
      { config := 5, loader := { id := 0, subclass := 7 }, processors := [101],
        targets := [], state := .loading, catchups := [], objects := [],
        headerUpdate := false, pendingCatchup := false }
      102 none (by decide) (by decide)).2.2.1⟩

end NxusDataLoaders

namespace NxusDataLoaders

/-! ## Request cancellation — `PooledRequest.cancel`
(src/PooledDataRequest.js lines 83-88, src/PooledDataRequestMixin.js
lines 86-91). -/

/-- The promise/controller state of one `PooledRequest`:
`hasController` records whether `_start()` has run (fetch begun,
`__controller` assigned); `settled` is the result promise
(`none` = pending, `some true` = resolved, `some false` = rejected);
`abortRequested` records `controller.abort()` having been called. -/
structure RequestState where
  hasController : Bool
  settled : Option Bool
  abortRequested : Bool
  deriving DecidableEq, Repr

/-- Promise rejection (`this.__reject(...)`): settling is idempotent —
rejecting an already-settled promise changes nothing. -/
def rejectPromise (r : RequestState) : RequestState :=
  match r.settled with
  | none => { r with settled := some false }
  | some _ => r

/-- `PooledRequest.cancel`: when `__controller` exists (the fetch has
started), call `controller.abort()` — the source comment reads
"should eventually reject" — WITHOUT settling the promise in this call;
when the fetch has not started, reject the promise immediately. -/
def cancel (r : RequestState) : RequestState :=
  if r.hasController then { r with abortRequested := true }
  else rejectPromise r

/-- The transport later propagating the abort: the `fetch` promise
rejects (`(err) => { this.__reject(err) }` in `_start`), settling the
result promise. -/
def transportAbortConfirm (r : RequestState) : RequestState := rejectPromise r

/-- A request whose fetch execution has started and whose promise is
still pending. -/
def activePendingRequest : RequestState :=
  { hasController := true, settled := none, abortRequested := false }

/-- C3 counterexample: calling `cancel()` on a request whose fetch has
started does NOT settle the result promise — it stays pending (only
`abort` is signalled), so cancellation does wait for the transport. -/
theorem cancel_active_leaves_promise_pending :
    (cancel activePendingRequest).settled = none ∧
      (cancel activePendingRequest).abortRequested = true := by
  decide

/-- C3 (amended): `cancel()` settles the result promise with a rejection
immediately only when fetch execution has not started; on a request
whose fetch has started, `cancel()` only signals abort — the promise
keeps its state and settles when (and only when) the transport
propagates the abort as a rejection. -/
theorem cancel_settles_only_unstarted (r s : RequestState)
    (h1 : r.hasController = false) (h2 : r.settled = none)
    (h3 : s.hasController = true) (h4 : s.settled = none) :
    (cancel r).settled = some false ∧
      (cancel s).settled = none ∧
      (cancel s).abortRequested = true ∧
      (transportAbortConfirm (cancel s)).settled = some false := by
  unfold cancel transportAbortConfirm rejectPromise
  rw [h1, h3]
  simp [h2, h4]

/-- Witness for C3 (amended): an unstarted pending request rejects at
once; a started pending request stays pending until the transport
confirms. -/
theorem cancel_settles_only_unstarted_witness :
    (cancel { hasController := false, settled := none, abortRequested := false }).settled
        = some false ∧
      (cancel activePendingRequest).settled = none ∧
      (cancel activePendingRequest).abortRequested = true ∧
      (transportAbortConfirm (cancel activePendingRequest)).settled = some false :=
  cancel_settles_only_unstarted
    { hasController := false, settled := none, abortRequested := false }
    activePendingRequest (by decide) (by decide) (by decide) (by decide)

end NxusDataLoaders

namespace NxusDataLoaders

/-! ## Change-triggered reload — `UpdatingDataLoaderMixin`
(src/UpdatingDataLoaderMixin.js) layered on the request scheduling of
`StreamedDataLoader` (part_003). -/

inductive RequestCycleState where
  | idle
  | pending
  | active
  deriving DecidableEq, Repr

/-- A parsed change-notification payload
(`{superseded: {name: timestamp, ...}}`; the `superseded` member is
optional). -/
structure StatusData where
  superseded : Option (List (String × Nat))
  deriving DecidableEq, Repr

structure LoaderClientState where
  requestState : RequestCycleState
  requestDelay : Nat
  hasTimer : Bool
  statusEventData : Option StatusData
  timestamps : List (String × Nat)
  deriving DecidableEq, Repr

/-- `this._timestamps[name] || 0` — a missing local timestamp counts as
0. -/
def tsLookup (ts : List (String × Nat)) (name : String) : Nat :=
  (lookupA ts name).getD 0

/-- The loop of `_queueDataRequestIfChanges` (lines 73-79): does any
superseded timestamp exceed the locally recorded one? -/
def anyExceeds (sup ts : List (String × Nat)) : Bool :=
  sup.any (fun q => decide (tsLookup ts q.1 < q.2))

/-- `StreamedDataLoader._delayedDataRequest(delay)` (part_003 lines
94-109): a pending request with a longer delay is cancelled back to
idle; from idle, arm a timer for the requested delay and become
pending.  Besides the new state, the delays of the timers armed by this
call are returned. -/
def delayedDataRequest (delay : Nat) (s : LoaderClientState) :
    LoaderClientState × List Nat :=
  let s1 := if s.requestState = .pending ∧ delay < s.requestDelay then
      { s with requestState := .idle, hasTimer := false }
    else s
  if s1.requestState = .idle then
    ({ s1 with requestState := .pending, requestDelay := delay, hasTimer := true },
      [delay])
  else (s1, [])

/-- `UpdatingDataLoaderMixin._queueDataRequestIfChanges` (lines 69-84):
only when the request state is `idle` and status-event data is held,
compare the superseded timestamps to the local ones and consume the
event data; if any exceeds, arm an immediate (zero-delay) reload. -/
def queueDataRequestIfChanges (s : LoaderClientState) :
    LoaderClientState × List Nat :=
  match s.requestState, s.statusEventData with
  | .idle, some d =>
      let changed := match d.superseded with
        | some sup => anyExceeds sup s.timestamps
        | none => false
      if changed then delayedDataRequest 0 { s with statusEventData := none }
      else ({ s with statusEventData := none }, [])
  | _, _ => (s, [])

/-- `UpdatingDataLoaderMixin._statusEventListener` (lines 57-60): store
the parsed event payload, then run the change check. -/
def statusEventListener (d : StatusData) (s : LoaderClientState) :
    LoaderClientState × List Nat :=
  queueDataRequestIfChanges { s with statusEventData := some d }

/-- C8: a change notification whose `superseded` map holds a timestamp
exceeding the locally recorded one arms exactly one immediate
(zero-delay) reload when the loader is `idle` (the state becomes
`pending` with delay 0); the same notification received while `active`
or `pending` arms no reload and leaves the request state untouched. -/
theorem status_event_reload_decision (s t : LoaderClientState) (d : StatusData)
    (sup : List (String × Nat))
    (h1 : s.requestState = .idle)
    (h2 : d.superseded = some sup)
    (h3 : anyExceeds sup s.timestamps = true)
    (h4 : t.requestState = .active ∨ t.requestState = .pending) :
    (statusEventListener d s).2 = [0] ∧
      (statusEventListener d s).1.requestState = .pending ∧
      (statusEventListener d s).1.requestDelay = 0 ∧
      (statusEventListener d t).2 = [] ∧
      (statusEventListener d t).1 = { t with statusEventData := some d } := by
  have hidle : statusEventListener d s =
      delayedDataRequest 0 { s with statusEventData := none } := by
    unfold statusEventListener queueDataRequestIfChanges
    rw [h1]
    simp only [h2, h3, if_pos]
  have harm : delayedDataRequest 0 { s with statusEventData := none } =
      ({ s with
          statusEventData := none,
          requestState := .pending,
          requestDelay := 0,
          hasTimer := true }, [0]) := by
    unfold delayedDataRequest
    simp [h1]
  have hbusy : statusEventListener d t = ({ t with statusEventData := some d }, []) := by
    unfold statusEventListener queueDataRequestIfChanges
    rcases h4 with h4 | h4 <;> rw [h4]
  rw [hidle, harm, hbusy]
  exact ⟨rfl, rfl, rfl, rfl, rfl⟩

/-- Witness for C8: dependency `X` recorded locally at 5, notification
carries 10 — an idle loader arms one zero-delay reload; an active loader
arms none. -/
theorem status_event_reload_decision_witness :
    anyExceeds [("X", 10)] [("X", 5)] = true ∧
      (statusEventListener { superseded := some [("X", 10)] }
          { requestState := .idle, requestDelay := 0, hasTimer := false,
            statusEventData := none, timestamps := [("X", 5)] }).2 = [0] ∧
      (statusEventListener { superseded := some [("X", 10)] }
          { requestState := .active, requestDelay := 0, hasTimer := false,
            statusEventData := none, timestamps := [("X", 5)] }).2 = [] :=
  ⟨by decide,
    (status_event_reload_decision
      { requestState := .idle, requestDelay := 0, hasTimer := false,
        statusEventData := none, timestamps := [("X", 5)] }
      { requestState := .active, requestDelay := 0, hasTimer := false,
        statusEventData := none, timestamps := [("X", 5)] }
      { superseded := some [("X", 10)] } [("X", 10)]
      (by decide) (by decide) (by decide) (Or.inl (by decide))).1,
    (status_event_reload_decision
      { requestState := .idle, requestDelay := 0, hasTimer := false,
        statusEventData := none, timestamps := [("X", 5)] }
      { requestState := .active, requestDelay := 0, hasTimer := false,
        statusEventData := none, timestamps := [("X", 5)] }
      { superseded := some [("X", 10)] } [("X", 10)]
      (by decide) (by decide) (by decide) (Or.inl (by decide))).2.2.2.1⟩

end NxusDataLoaders

namespace NxusDataLoaders

/-! ## Activity reporting — `updateDataRequestActivity`
(src/PooledDataRequest.js lines 199-209; the element mixin variant in
src/PooledDataRequestMixin.js lines 200-208 is the same logic with the
element itself as the dispatch target). -/

/-- `updateDataRequestActivity(value)`: when the new activity value is
not deep-equal (lodash `isEqual`, embedded as equality of the opaque
payload) to the stored `_dataRequestActivity` (initially undefined),
store it and — when an activity target/event is configured — dispatch an
event carrying it; otherwise change nothing and dispatch nothing.
Returns (stored value afterwards, dispatched event payload if any). -/
def updateDataRequestActivity (hasTarget : Bool) (value : Nat)
    (stored : Option Nat) : Option Nat × Option Nat :=
  if stored = some value then (stored, none)
  else (some value, if hasTarget then some value else none)

/-- C10: an activity event is dispatched only when the new value is not
deep-equal to the previously reported one; a call repeating a value
equal to the stored one dispatches no event and leaves the stored state
unchanged — in particular, immediately repeating any call dispatches
nothing. -/
theorem activity_dispatch_only_on_change (hasTarget : Bool) (value : Nat)
    (stored : Option Nat) :
    ((updateDataRequestActivity hasTarget value stored).2.isSome →
        stored ≠ some value) ∧
      (stored = some value →
        updateDataRequestActivity hasTarget value stored = (stored, none)) ∧
      updateDataRequestActivity hasTarget value
          (updateDataRequestActivity hasTarget value stored).1 =
        ((updateDataRequestActivity hasTarget value stored).1, none) := by
  by_cases h : stored = some value <;>
    simp [updateDataRequestActivity, h]

/-- Witness for C10: repeating the value stored last dispatches nothing
and keeps the stored state. -/
theorem activity_dispatch_only_on_change_witness :
    updateDataRequestActivity true 1 (some 1) = (some 1, none) :=
  (activity_dispatch_only_on_change true 1 (some 1)).2.1 rfl

end NxusDataLoaders
